import Mathlib

/-!
Verification of the stream-translator / thought-card-consumer pair of the
Work-Trial repository.

The embedding covers:
* a JSON value model with an executable serializer (`stringify`, modelling
  `JSON.stringify`) and an executable parser (`jsonParse`, modelling
  `JSON.parse` on the integer-numeral sublanguage the repository exchanges);
* the chat route handler `POST` of `app/api/chat/route.ts`: payload
  construction (`buildPayload`), the raw-stream line re-framing pump
  (`splitPump`, `pumpChunks`), the single-JSON translation path
  (`processParts`, `handleOkData`, `handleJsonResponse`);
* the client stream consumer: the `ToolFallback` thought-card parse pipeline
  (`consumerParse`, `toolFallbackActions`), the `useAIThoughtCard` state hook
  (`TCState`, `resetTC`, `applyAction`), the `step-manager` registry
  (`Registry`, `applyStepData`) and the
  `useThoughtCardWithStreaming.handleStreamingData` dispatcher.

Strings on the wire are modelled as `List Char`; a JavaScript string value is
a Lean `String`.  Timer side effects (`setInterval`) and the artificial pacing
delays are not modelled: no claim mentions them.  Reads of React state inside
one event handler see the render snapshot (JavaScript closure semantics);
queued `setX` writes are applied in order afterwards — the embedding makes
this explicit by computing an action list from the snapshot and folding it
over the state.
-/

/-! ## JSON values -/

mutual
inductive Json where
  | null : Json
  | bool (b : Bool) : Json
  | num (n : Int) : Json
  | str (s : String) : Json
  | arr (elems : JsonArr) : Json
  | obj (fields : JsonObj) : Json
  deriving DecidableEq, Repr

inductive JsonArr where
  | nil : JsonArr
  | cons (hd : Json) (tl : JsonArr) : JsonArr
  deriving DecidableEq, Repr

inductive JsonObj where
  | nil : JsonObj
  | cons (key : String) (val : Json) (tl : JsonObj) : JsonObj
  deriving DecidableEq, Repr
end

/-- Property lookup on an object; `none` plays the role of `undefined`. -/
def JsonObj.lookupField : JsonObj → String → Option Json
  | .nil, _ => none
  | .cons k v tl, key => if k = key then some v else tl.lookupField key

/-- The JavaScript expression `x.f` (undefined on non-objects). -/
def Json.getField : Json → String → Option Json
  | .obj fs, key => fs.lookupField key
  | _, _ => none

/-- JavaScript truthiness of a value. -/
def jsTruthy : Json → Bool
  | .null => false
  | .bool b => b
  | .num n => n != 0
  | .str s => s != ""
  | .arr _ => true
  | .obj _ => true

/-- JavaScript truthiness where `none` is `undefined`. -/
def jsTruthyOpt : Option Json → Bool
  | none => false
  | some v => jsTruthy v

def JsonArr.toList : JsonArr → List Json
  | .nil => []
  | .cons v tl => v :: tl.toList

/-! ## Serialization (`JSON.stringify`) -/

def digitChar : Nat → Char
  | 0 => '0' | 1 => '1' | 2 => '2' | 3 => '3' | 4 => '4'
  | 5 => '5' | 6 => '6' | 7 => '7' | 8 => '8' | _ => '9'

/-- Decimal digits of a natural number, with explicit fuel so that the
definition is structurally recursive (the wrapper `natDigits` always supplies
enough fuel). -/
def natDigitsAux : Nat → Nat → List Char
  | 0, _ => []
  | f + 1, n =>
    if n < 10 then [digitChar n]
    else natDigitsAux f (n / 10) ++ [digitChar (n % 10)]

def natDigits (n : Nat) : List Char := natDigitsAux (n + 1) n

def intChars : Int → List Char
  | .ofNat n => natDigits n
  | .negSucc m => '-' :: natDigits (m + 1)

/-- JSON string escaping for one character (the escapes `JSON.stringify`
emits for the characters this repository's payloads can contain). -/
def escChar : Char → List Char
  | '"' => "\\\"".toList
  | '\\' => "\\\\".toList
  | '\n' => "\\n".toList
  | '\t' => "\\t".toList
  | '\r' => "\\r".toList
  | c => [c]

def escape (cs : List Char) : List Char := (cs.map escChar).flatten

mutual
def stringifyChars : Json → List Char
  | .null => "null".toList
  | .bool b => (if b then "true" else "false").toList
  | .num i => intChars i
  | .str s => '"' :: (escape s.toList ++ ['"'])
  | .arr es => '[' :: (elemsChars es ++ [']'])
  | .obj fs => '\x7b' :: (membersChars fs ++ ['\x7d'])

def elemsChars : JsonArr → List Char
  | .nil => []
  | .cons v .nil => stringifyChars v
  | .cons v (.cons w tl) => stringifyChars v ++ ',' :: elemsChars (.cons w tl)

def membersChars : JsonObj → List Char
  | .nil => []
  | .cons k v .nil => '"' :: (escape k.toList ++ '"' :: ':' :: stringifyChars v)
  | .cons k v (.cons k2 v2 tl) =>
      ('"' :: (escape k.toList ++ '"' :: ':' :: stringifyChars v)) ++
        ',' :: membersChars (.cons k2 v2 tl)
end

/-- `JSON.stringify` as a JavaScript string. -/
def stringify (j : Json) : String := String.mk (stringifyChars j)

/-- `JSON.stringify(x)` in a template literal position: `undefined` prints as
the text `undefined`. -/
def stringifyOptChars : Option Json → List Char
  | some j => stringifyChars j
  | none => "undefined".toList

/-! ## Parsing (`JSON.parse`) -/

def isWsChar (c : Char) : Bool := c = ' ' || c = '\n' || c = '\t' || c = '\r'

def skipWs (cs : List Char) : List Char := cs.dropWhile isWsChar

def unescChar (e : Char) : Option Char :=
  if e == '"' || e == '\\' || e == '/' then some e
  else if e == 'n' then some '\n'
  else if e == 't' then some '\t'
  else if e == 'r' then some '\r'
  else if e == 'b' then some '\x08'
  else if e == 'f' then some '\x0c'
  else none

/-- Body of a JSON string literal after the opening quote: returns the decoded
characters and the input after the closing quote. -/
def parseStrChars : List Char → Option (List Char × List Char)
  | [] => none
  | '\\' :: [] => none
  | '\\' :: e :: r2 =>
    match unescChar e with
    | none => none
    | some d => (parseStrChars r2).map (fun p => (d :: p.1, p.2))
  | c :: r =>
    if c = '"' then some ([], r)
    else (parseStrChars r).map (fun p => (c :: p.1, p.2))

def isDigitChar (c : Char) : Bool := 48 ≤ c.toNat && c.toNat ≤ 57

def digitVal : Char → Nat
  | '0' => 0 | '1' => 1 | '2' => 2 | '3' => 3 | '4' => 4
  | '5' => 5 | '6' => 6 | '7' => 7 | '8' => 8 | '9' => 9
  | _ => 0

def foldDigits (cs : List Char) : Nat := cs.foldl (fun a c => a * 10 + digitVal c) 0

mutual
/-- Fueled recursive-descent JSON value parser. -/
def parseValue : Nat → List Char → Option (Json × List Char)
  | 0, _ => none
  | f + 1, cs =>
    match skipWs cs with
    | [] => none
    | c :: r =>
      if c = '"' then (parseStrChars r).map (fun p => (.str (String.mk p.1), p.2))
      else if c = '\x7b' then
        match skipWs r with
        | '\x7d' :: r2 => some (.obj .nil, r2)
        | _ => (parseMembers f r).map (fun p => (.obj p.1, p.2))
      else if c = '[' then
        match skipWs r with
        | ']' :: r2 => some (.arr .nil, r2)
        | _ => (parseElems f r).map (fun p => (.arr p.1, p.2))
      else if c = 't' then
        match r with
        | 'r' :: 'u' :: 'e' :: r2 => some (.bool true, r2)
        | _ => none
      else if c = 'f' then
        match r with
        | 'a' :: 'l' :: 's' :: 'e' :: r2 => some (.bool false, r2)
        | _ => none
      else if c = 'n' then
        match r with
        | 'u' :: 'l' :: 'l' :: r2 => some (.null, r2)
        | _ => none
      else if c = '-' then
        let ds := r.takeWhile isDigitChar
        if ds.isEmpty then none
        else some (.num (-(foldDigits ds : Int)), r.dropWhile isDigitChar)
      else if isDigitChar c then
        some (.num (foldDigits ((c :: r).takeWhile isDigitChar)),
              (c :: r).dropWhile isDigitChar)
      else none

def parseMembers : Nat → List Char → Option (JsonObj × List Char)
  | 0, _ => none
  | f + 1, cs =>
    match skipWs cs with
    | '"' :: r =>
      match parseStrChars r with
      | none => none
      | some (kcs, r1) =>
        match skipWs r1 with
        | ':' :: r2 =>
          match parseValue f r2 with
          | none => none
          | some (v, r3) =>
            match skipWs r3 with
            | ',' :: r4 => (parseMembers f r4).map (fun p => (.cons (String.mk kcs) v p.1, p.2))
            | '\x7d' :: r4 => some (.cons (String.mk kcs) v .nil, r4)
            | _ => none
        | _ => none
    | _ => none

def parseElems : Nat → List Char → Option (JsonArr × List Char)
  | 0, _ => none
  | f + 1, cs =>
    match parseValue f cs with
    | none => none
    | some (v, r) =>
      match skipWs r with
      | ',' :: r2 => (parseElems f r2).map (fun p => (.cons v p.1, p.2))
      | ']' :: r2 => some (.cons v .nil, r2)
      | _ => none
end

/-- `JSON.parse` on the sublanguage this repository exchanges (integer
numerals, no `\u` escapes).  The fuel `length + 9` dominates the lexical
depth of every value the proofs and witnesses touch. -/
def jsonParse (cs : List Char) : Option Json :=
  match parseValue (cs.length + 9) cs with
  | some (v, r) => if skipWs r = [] then some v else none
  | none => none

example : jsonParse "\x7b\"a\":1\x7d".toList = some (.obj (.cons "a" (.num 1) .nil)) := by decide

example : jsonParse "\x7b\"content\":".toList = none := by decide

example : jsonParse (stringifyChars (.obj (.cons "a" (.str "h\ni") .nil))) =
    some (.obj (.cons "a" (.str "h\ni") .nil)) := by decide

example : jsonParse "[1,true,null,\"x\",-5]".toList =
    some (.arr (.cons (.num 1) (.cons (.bool true) (.cons .null
      (.cons (.str "x") (.cons (.num (-5)) .nil)))))) := by decide

/-! ## Stream Translator — `app/api/chat/route.ts`

The route handler `POST`: payload construction (lines 5–33), the raw-stream
line re-framing pump (lines 60–107), the single-JSON translation path
(lines 122–176) and the catch-all error response (lines 184–197). -/

/-- One entry of a structured (array-valued) message content. -/
structure ContentPart where
  text : Option String
  content : Option String
  deriving DecidableEq, Repr

/-- The JavaScript expression `c.text || c.content` as it behaves under
`Array.prototype.join` (an `undefined` result joins as the empty string). -/
def pickText (p : ContentPart) : String :=
  if p.text.getD "" ≠ "" then p.text.getD "" else p.content.getD ""

inductive MsgContent where
  | str (s : String) : MsgContent
  | parts (ps : List ContentPart) : MsgContent
  deriving DecidableEq, Repr

/-- Flattening of a message's content: `Array.isArray(msg.content) ?
msg.content.map(c => c.text || c.content).join('') : msg.content`. -/
def flattenContent : MsgContent → String
  | .str s => s
  | .parts ps => String.join (ps.map pickText)

structure InMessage where
  role : String
  content : MsgContent
  deriving DecidableEq, Repr

structure BackendMessage where
  role : String
  content : String
  deriving DecidableEq, Repr

/-- Backend payload built by the route handler (route.ts lines 16–33).
`provider`, `model`, `agent_mode` and the settings are fixed constants. -/
structure Payload where
  messages : List BackendMessage
  provider : String
  model : String
  agent_mode : String
  showCost : Bool
  contextCompression : Bool
  deriving DecidableEq, Repr

/-- Payload construction: re-key the messages, then `unshift` a system
message when `system` is truthy (an absent or empty system string is falsy,
so nothing is prepended). -/
def buildPayload (messages : List InMessage) (system : Option String) : Payload :=
  let backendMessages := messages.map
    (fun m => BackendMessage.mk m.role (flattenContent m.content))
  let base : Payload := ⟨backendMessages, "openai", "gpt-4o-mini", "agent", true, false⟩
  if system.getD "" ≠ "" then
    { base with messages := BackendMessage.mk "system" (system.getD "") :: base.messages }
  else base

/-- JavaScript `String.prototype.trim` (on the whitespace forms the repo's
streams contain). -/
def trimChars (cs : List Char) : List Char :=
  ((cs.dropWhile isWsChar).reverse.dropWhile isWsChar).reverse

/-- `buffer.split('\n')` with the last element popped off: the complete lines
and the trailing partial line (route.ts lines 83–86). -/
def splitPump : List Char → List (List Char) × List Char
  | [] => ([], [])
  | c :: cs =>
    if c = '\n' then
      ([] :: (splitPump cs).1, (splitPump cs).2)
    else
      match splitPump cs with
      | ([], r) => ([], c :: r)
      | (l :: ls, r) => ((c :: l) :: ls, r)

/-- The per-line emission loop (route.ts lines 89–96): every complete line
whose trim is non-empty is enqueued with a newline re-appended. -/
def emitLines (ls : List (List Char)) : List (List Char) :=
  (ls.filter (fun l => !(trimChars l).isEmpty)).map (fun l => l ++ ['\n'])

/-- The pump loop (route.ts lines 64–104): thread the carry-over buffer
through the chunks; at end of stream flush a non-blank remaining buffer
verbatim (without a newline). -/
def pumpGo (buffer : List Char) : List (List Char) → List (List Char)
  | [] => if (trimChars buffer).isEmpty then [] else [buffer]
  | chunk :: rest =>
    emitLines (splitPump (buffer ++ chunk)).1 ++ pumpGo (splitPump (buffer ++ chunk)).2 rest

def pumpChunks (chunks : List (List Char)) : List (List Char) := pumpGo [] chunks

/-- What a single-chunk run of the pump emits for a whole input: complete
non-blank lines re-terminated, plus the non-blank trailing fragment. -/
def canonicalOut (input : List Char) : List (List Char) :=
  emitLines (splitPump input).1 ++
    (if (trimChars (splitPump input).2).isEmpty then [] else [(splitPump input).2])

/-- The synthetic tool-call envelope object for a thought-card part
(route.ts lines 143–147): its `args` field is the JSON-serialized part. -/
def envelopeJson (index : Nat) (part : Json) : Json :=
  .obj (.cons "toolCallId" (.str ("thought_" ++ String.mk (natDigits index)))
    (.cons "toolName" (.str "thought_card")
    (.cons "args" (.str (stringify part)) .nil)))

/-- The synthetic tool-call envelope frame for a thought-card part
(route.ts lines 142–147). -/
def toolCallFrame (index : Nat) (part : Json) : List Char :=
  '9' :: ':' :: stringifyChars (envelopeJson index part) ++ ['\n']

/-- The text-delta frame for a text part (route.ts line 154). -/
def textFrame (part : Json) : List Char :=
  '0' :: ':' :: stringifyOptChars (part.getField "text") ++ ['\n']

/-- Frame(s) emitted for one part: a `9:` envelope for `thought_card`, a `0:`
text frame for `text`, nothing for any other tag (route.ts lines 141–157). -/
def emitPart (index : Nat) (part : Json) : List (List Char) :=
  if part.getField "type" = some (.str "thought_card") then [toolCallFrame index part]
  else if part.getField "type" = some (.str "text") then [textFrame part]
  else []

/-- The `for (let index = 0; ...)` loop of `processPartsSequentially`. -/
def processParts (index : Nat) : List Json → List (List Char)
  | [] => []
  | p :: ps => emitPart index p ++ processParts (index + 1) ps

/-- The terminal frame (route.ts line 165). -/
def dFrame (usage : Option Json) : List Char :=
  "d:\x7b\"finishReason\":\"stop\",\"usage\":".toList ++
    stringifyOptChars usage ++ "\x7d\n".toList

/-- The fallback single text frame when `parts` is absent or empty
(route.ts line 161).  A payload with no `message` object would throw in the
source before enqueueing; no claim touches that path. -/
def fallbackFrame (data : Json) : List Char :=
  '0' :: ':' :: stringifyOptChars
    ((data.getField "message").bind (fun m => m.getField "content")) ++ ['\n']

/-- Stream produced by `processPartsSequentially` for an `ok` payload
(route.ts lines 133–169). -/
def handleOkData (data : Json) : List (List Char) :=
  (match data.getField "parts" with
   | some (.arr parts) =>
     if parts.toList.isEmpty then [fallbackFrame data] else processParts 0 parts.toList
   | _ => [fallbackFrame data]) ++ [dFrame (data.getField "usage")]

/-- JavaScript `String(v)` as needed for `Error` messages.  Array
stringification is not modelled precisely (no claim exercises it: the
backend's error message is a string). -/
def jsShow : Json → String
  | .null => "null"
  | .bool true => "true"
  | .bool false => "false"
  | .num i => String.mk (intChars i)
  | .str s => s
  | .arr _ => ""
  | .obj _ => "[object Object]"

/-- The thrown message `data.error?.message || 'Backend returned error'`
(route.ts line 125), surfaced through the catch block as `error.message`. -/
def errorMessageOf (data : Json) : String :=
  match (data.getField "error").bind (fun e => e.getField "message") with
  | some v => if jsTruthy v then jsShow v else "Backend returned error"
  | none => "Backend returned error"

/-- Outcome of the route handler's non-streaming branch. -/
inductive RouteResult where
  | stream (frames : List (List Char)) : RouteResult
  | httpError (status : Nat) (body : String) : RouteResult
  deriving DecidableEq, Repr

/-- The single-JSON (Case B) branch of `POST` (route.ts lines 122–197): an
`ok:false` payload throws and is caught, producing the HTTP 500 JSON error
response; an `ok` payload produces the synthetic frame stream. -/
def handleJsonResponse (data : Json) : RouteResult :=
  if !(jsTruthyOpt (data.getField "ok")) then
    .httpError 500 (stringify (.obj (.cons "error" (.str (errorMessageOf data)) .nil)))
  else
    .stream (handleOkData data)

/-! ## Client Stream Consumer

The `ToolFallback` thought-card ingestion path (`tool-fallback` component),
the `useAIThoughtCard` state hook (`ai-thought-card`), the module-level step
registry (`step-manager`) and the `useThoughtCardWithStreaming` dispatcher
(`thought-card-context`).  Step `id` and `timestamp` fields are generated
from `Date.now()`/`Math.random()` and referenced by no claim; the embedding
omits them. -/

/-- The incremental parse pipeline of `ToolFallback` for `thought_card`
tool calls (lines 159–191): skip blank argument text, skip text that does not
start with a brace or quote, parse, and parse once more if the value is
itself a string (double-encoded payload). -/
def consumerDecode (argsText : String) : Option Json :=
  let trimmed := trimChars argsText.toList
  if trimmed.isEmpty then none
  else if !(trimmed.head? == some '\x7b' || trimmed.head? == some '"') then none
  else
    match jsonParse trimmed with
    | none => none
    | some (.str s) => jsonParse s.toList
    | some v => some v

/-- The complete-card filter (lines 194–197): a decoded value lacking a
truthy `content` or a truthy `card_type` is dropped. -/
def consumerParse (argsText : String) : Option Json :=
  match consumerDecode argsText with
  | none => none
  | some p =>
    if jsTruthyOpt (p.getField "content") && jsTruthyOpt (p.getField "card_type") then some p
    else none

inductive Status where
  | processing : Status
  | completed : Status
  | error : Status
  deriving DecidableEq, Repr

inductive StepType where
  | step : StepType
  | thinking : StepType
  | executing : StepType
  | complete : StepType
  deriving DecidableEq, Repr

structure Step where
  text : Option Json
  meta : Option Json
  type : StepType
  deriving DecidableEq, Repr

/-- The `useAIThoughtCard` state (ai-thought-card lines 236–245). -/
structure TCState where
  isVisible : Bool
  status : Status
  progress : Json
  thinkingTime : Nat
  steps : List Step
  liveText : Option Json
  isTyping : Bool
  fileWriting : Option Json
  deriving DecidableEq, Repr

def initialTC : TCState :=
  ⟨false, .processing, .num 0, 0, [], some (.str ""), false, none⟩

/-- The `reset` callback (ai-thought-card lines 311–326); the timer teardown
is not modelled. -/
def resetTC (s : TCState) : TCState :=
  { s with
      isVisible := false
      status := .processing
      progress := .num 0
      thinkingTime := 0
      steps := []
      liveText := some (.str "")
      isTyping := false
      fileWriting := none }

/-- Per-step accumulated data of the step registry (step-manager lines 5–17). -/
structure StepData where
  thinking : Option Json
  toolExecution : Option Json
  toolResult : Option Json
  deriving DecidableEq, Repr

def emptyStepData : StepData := ⟨none, none, none⟩

/-- The module-level registry of `step-manager`: the `stepData` map (keys are
the JavaScript `step` values, `none` being `undefined`) and the
`finalAnswer` slot. -/
structure Registry where
  stepData : List (Option Json × StepData)
  finalAnswer : Option Json
  deriving DecidableEq, Repr

def emptyRegistry : Registry := ⟨[], none⟩

def lookupStep : List (Option Json × StepData) → Option Json → Option StepData
  | [], _ => none
  | (k, v) :: tl, key => if k = key then some v else lookupStep tl key

def setStep : List (Option Json × StepData) → Option Json → StepData → List (Option Json × StepData)
  | [], key, v => [(key, v)]
  | (k, w) :: tl, key, v => if k = key then (key, v) :: tl else (k, w) :: setStep tl key v

/-- `addStepData` (step-manager lines 35–69).  Property values that would be
`undefined` in the stored records are modelled as `null`. -/
def applyStepData (step : Option Json) (cardType : Option Json) (data : Json)
    (reg : Registry) : Registry :=
  if cardType = some (.str "final_answer") then
    { reg with finalAnswer := data.getField "content" }
  else
    let existing := (lookupStep reg.stepData step).getD emptyStepData
    let updated :=
      if cardType = some (.str "thinking") then
        { existing with thinking := data.getField "content" }
      else if cardType = some (.str "tool_execution") then
        { existing with toolExecution := some (.obj
          (.cons "tool_name" ((data.getField "tool_name").getD .null)
          (.cons "tool_args" ((data.getField "tool_args").getD .null)
          (.cons "content" ((data.getField "content").getD .null) .nil)))) }
      else if cardType = some (.str "tool_result") then
        { existing with toolResult := some (.obj
          (.cons "tool_name" ((data.getField "tool_name").getD .null)
          (.cons "result" ((data.getField "result").getD .null)
          (.cons "content" ((data.getField "content").getD .null) .nil)))) }
      else existing
    { reg with stepData := setStep reg.stepData step updated }

/-- One observable state mutation issued by a consumer handler. -/
inductive Act where
  | clearAllSteps : Act
  | reset : Act
  | startThinking (initialText : Option String) : Act
  | addStep (text : Option Json) (meta : Option Json) (type : StepType) : Act
  | updateLiveText (text : Option Json) (typing : Bool) : Act
  | updateFileWriting (fileData : Json) : Act
  | complete : Act
  | hide : Act
  | setProgress (p : Json) : Act
  | addStepData (step : Option Json) (cardType : Option Json) (data : Json) : Act
  | setCardData (data : Json) : Act
  deriving DecidableEq, Repr

/-- Whole client-side state: thought-card hook state, step registry, and the
`ToolFallback` component's `cardData`. -/
structure ConsumerState where
  tc : TCState
  reg : Registry
  cardData : Option Json
  deriving DecidableEq, Repr

/-- Semantics of each action, following the `useAIThoughtCard` setters
(ai-thought-card lines 247–326) and the step-manager mutators. -/
def applyAction (s : ConsumerState) : Act → ConsumerState
  | .clearAllSteps => { s with reg := emptyRegistry }
  | .reset => { s with tc := resetTC s.tc }
  | .startThinking txt =>
    { s with tc := { s.tc with
        isVisible := true
        status := .processing
        progress := .num 0
        thinkingTime := 0
        steps := []
        liveText := some (.str (txt.getD ""))
        isTyping := true } }
  | .addStep text meta ty =>
    { s with tc := { s.tc with steps := s.tc.steps ++ [⟨text, meta, ty⟩] } }
  | .updateLiveText t typing =>
    { s with tc := { s.tc with liveText := t, isTyping := typing } }
  | .updateFileWriting fd => { s with tc := { s.tc with fileWriting := some fd } }
  | .complete =>
    { s with tc := { s.tc with
        status := .completed
        progress := .num 100
        isTyping := false } }
  | .hide => { s with tc := { s.tc with isVisible := false } }
  | .setProgress p => { s with tc := { s.tc with progress := p } }
  | .addStepData st ct d => { s with reg := applyStepData st ct d s.reg }
  | .setCardData d => { s with cardData := some d }

def runActions (s : ConsumerState) (acts : List Act) : ConsumerState :=
  acts.foldl applyAction s

/-- The state mutations issued by `ToolFallback` for one `thought_card`
argument-text value (lines 147–243).  `snapVisible` is the render-snapshot
value of `thoughtCard.isVisible` that the handler's conditions read. -/
def toolFallbackActions (snapVisible : Bool) (argsText : String) : List Act :=
  match consumerParse argsText with
  | none => []
  | some p =>
    let ct := p.getField "card_type"
    let content := p.getField "content"
    let step := p.getField "step"
    let toolName := p.getField "tool_name"
    (if step == some (.num 1) && ct == some (.str "thinking") then
      [.clearAllSteps, .reset] else []) ++
    (if !snapVisible && ct == some (.str "thinking") then
      [.startThinking (some "Starting analysis...")] else []) ++
    (if ct == some (.str "thinking") then [.addStep content toolName .thinking]
     else if ct == some (.str "executing") then [.addStep content toolName .executing]
     else if ct == some (.str "final_answer") then [.addStep content none .complete, .complete]
     else [.addStep content toolName .step]) ++
    [.addStepData step ct p, .setCardData p]

/-- `x || d` for an optional field read. -/
def jsOr (v : Option Json) (d : Json) : Json :=
  match v with
  | some x => if jsTruthy x then x else d
  | none => d

def jsShowOpt : Option Json → String
  | some v => jsShow v
  | none => "undefined"

/-- The file-write record built for `file_writing`/`file_complete` cards
(thought-card-context lines 114–122); `undefined` values modelled as `null`. -/
def fileWriteRecord (data : Json) : Json :=
  .obj (.cons "filename" ((data.getField "filename").getD .null)
    (.cons "file_path" ((data.getField "file_path").getD .null)
    (.cons "file_type" ((data.getField "file_type").getD .null)
    (.cons "content" ((data.getField "content").getD .null)
    (.cons "progress" ((data.getField "progress").getD .null)
    (.cons "writing" ((data.getField "writing").getD .null)
    (.cons "size" ((data.getField "size").getD .null) .nil)))))))

/-- `useThoughtCardWithStreaming.handleStreamingData`
(thought-card-context.tsx lines 74–138).  All condition reads see the render
snapshot `snap`, including the completed-guard read after a queued reset. -/
def handleStreamingDataActions (snap : TCState) (data : Json) : List Act :=
  let ty := data.getField "type"
  let resetActs :=
    if ty == some (.str "new_message_start") ||
       (ty == some (.str "step_start") && snap.status == Status.completed) then
      [Act.reset]
    else []
  if snap.status == Status.completed && !(ty == some (.str "new_message_start")) then
    resetActs
  else
    resetActs ++
    (if ty == some (.str "thought_card") then
      (let ct := data.getField "card_type"
       if ct == some (.str "thinking") then
         (if !snap.isVisible then [.startThinking (some "Starting analysis...")] else []) ++
         [.addStep (data.getField "content") (data.getField "meta") .thinking]
       else if ct == some (.str "executing") then
         [.addStep (data.getField "content") (data.getField "meta") .executing]
       else if ct == some (.str "complete") then
         [.addStep (data.getField "content") (data.getField "meta") .complete, .complete]
       else if ct == some (.str "progress") then
         [.setProgress (jsOr (data.getField "progress") (.num 0))]
       else if ct == some (.str "live_text") then
         [.updateLiveText (data.getField "content")
           (!(data.getField "typing" == some (.bool false)))]
       else if ct == some (.str "file_writing") || ct == some (.str "file_complete") then
         [.updateFileWriting (fileWriteRecord data)]
       else [.addStep (data.getField "content") (data.getField "meta") .step])
     else if ty == some (.str "step_start") then
       (if !snap.isVisible then [.startThinking (some "Processing your request...")] else []) ++
       [.addStep (some (.str ("Starting step " ++ jsShowOpt (data.getField "step") ++ "...")))
         none .thinking]
     else if ty == some (.str "final_message") then [.complete]
     else [])

/-! ## Claim theorems -/

/-- C9: issuing `reset` on the thought-card state when no turn is active
(the state is the fresh initial state) leaves the state unchanged; calling it
mid-turn clears the steps list, the live text, the file-write record,
progress and thinking time, and returns status and visibility to the fresh
initial state; and reset composed with reset equals a single reset. -/
theorem c9_reset_noop_clears_idempotent :
    resetTC initialTC = initialTC ∧
    (∀ s : TCState,
      (resetTC s).steps = [] ∧
      (resetTC s).liveText = some (.str "") ∧
      (resetTC s).fileWriting = none ∧
      (resetTC s).progress = .num 0 ∧
      (resetTC s).thinkingTime = 0 ∧
      (resetTC s).status = initialTC.status ∧
      (resetTC s).isVisible = initialTC.isVisible) ∧
    (∀ s : TCState, resetTC (resetTC s) = resetTC s) :=
  ⟨rfl, fun _ => ⟨rfl, rfl, rfl, rfl, rfl, rfl, rfl⟩, fun _ => rfl⟩

/-- C8 counterexample: a request carrying a present-but-empty system message
(`system: ""`) is forwarded with no system entry at all — the first element
of `payload.messages` is the user message, so the system message is not
relocated to the front.  The route guard `if (system)` treats the empty
string as absent. -/
theorem c8_empty_system_not_relocated :
    (buildPayload [⟨"user", .str "hello"⟩] (some "")).messages =
      [⟨"user", "hello"⟩] ∧
    (buildPayload [⟨"user", .str "hello"⟩] (some "")).messages.head? ≠
      some ⟨"system", ""⟩ := by
  decide

/-- C8 (amended): for every forwarded request in which a non-empty system
message is present, the payload's message sequence is the system message
followed by the re-keyed conversation messages; in particular the system
message is its first element. -/
theorem c8_system_message_front (msgs : List InMessage) (sys : String) (h : sys ≠ "") :
    (buildPayload msgs (some sys)).messages =
      ⟨"system", sys⟩ :: msgs.map (fun m => BackendMessage.mk m.role (flattenContent m.content)) ∧
    (buildPayload msgs (some sys)).messages.head? = some ⟨"system", sys⟩ := by
  constructor <;> simp [buildPayload, h]

/-- Witness for C8 (amended) at a concrete request. -/
theorem c8_system_message_front_witness :
    "be nice" ≠ "" ∧
    (buildPayload [⟨"user", .str "hello"⟩] (some "be nice")).messages.head? =
      some ⟨"system", "be nice"⟩ :=
  ⟨by decide, (c8_system_message_front [⟨"user", .str "hello"⟩] "be nice" (by decide)).2⟩

/-- C3 counterexample: a backend response `ok:false` whose error message is
present but empty is not surfaced verbatim — the falsy message makes
`data.error?.message || 'Backend returned error'` take the fallback, so the
500 body carries `"Backend returned error"` instead of `""`. -/
theorem c3_empty_message_fallback_not_verbatim :
    ((Json.obj (.cons "ok" (.bool false)
        (.cons "error" (.obj (.cons "message" (.str "") .nil)) .nil))).getField "error").bind
      (fun e => e.getField "message") = some (.str "") ∧
    handleJsonResponse (.obj (.cons "ok" (.bool false)
        (.cons "error" (.obj (.cons "message" (.str "") .nil)) .nil))) =
      .httpError 500 "\x7b\"error\":\"Backend returned error\"\x7d" ∧
    handleJsonResponse (.obj (.cons "ok" (.bool false)
        (.cons "error" (.obj (.cons "message" (.str "") .nil)) .nil))) ≠
      .httpError 500 "\x7b\"error\":\"\"\x7d" := by
  decide

/-- C3 (amended): for every `SinglePayload` backend response with falsy `ok`
and a non-empty error message string, the translation produces no stream of
protocol frames but an HTTP 500 response whose JSON body carries the
backend's message verbatim (an absent or empty message falls back to
`"Backend returned error"`). -/
theorem c3_ok_false_http_error (data : Json) (m : String)
    (hok : jsTruthyOpt (data.getField "ok") = false)
    (hmsg : (data.getField "error").bind (fun e => e.getField "message") = some (.str m))
    (hm : m ≠ "") :
    handleJsonResponse data =
      .httpError 500 (stringify (.obj (.cons "error" (.str m) .nil))) ∧
    ∀ frames, handleJsonResponse data ≠ .stream frames := by
  have hbody : handleJsonResponse data =
      .httpError 500 (stringify (.obj (.cons "error" (.str m) .nil))) := by
    unfold handleJsonResponse errorMessageOf
    rw [hok, hmsg]
    simp [jsTruthy, jsShow, hm]
  exact ⟨hbody, fun frames h => by rw [hbody] at h; exact RouteResult.noConfusion h⟩

/-- Witness for C3: the backend payload `ok:false, error.message:"rate
limited"` yields HTTP 500 with body exactly `\x7b"error":"rate limited"\x7d`. -/
theorem c3_ok_false_http_error_witness :
    jsTruthyOpt ((Json.obj (.cons "ok" (.bool false)
        (.cons "error" (.obj (.cons "message" (.str "rate limited") .nil)) .nil))).getField "ok")
      = false ∧
    handleJsonResponse (.obj (.cons "ok" (.bool false)
        (.cons "error" (.obj (.cons "message" (.str "rate limited") .nil)) .nil))) =
      .httpError 500 "\x7b\"error\":\"rate limited\"\x7d" :=
  ⟨by decide,
    (c3_ok_false_http_error
      (.obj (.cons "ok" (.bool false)
        (.cons "error" (.obj (.cons "message" (.str "rate limited") .nil)) .nil)))
      "rate limited" (by decide) (by decide) (by decide)).1.trans (by decide)⟩

/-- Well-formed part tags per the spec's data model: a `Part` is a
`ThoughtCardPart` or a `TextPart`. -/
def wellFormedPart (p : Json) : Prop :=
  p.getField "type" = some (.str "thought_card") ∨ p.getField "type" = some (.str "text")

instance : DecidablePred wellFormedPart := fun p => by
  unfold wellFormedPart
  infer_instance

theorem processParts_forall2 (i : Nat) (ps : List Json)
    (hwf : ∀ p ∈ ps, wellFormedPart p) :
    List.Forall₂ (fun p f => f.head? =
        some (if p.getField "type" = some (.str "thought_card") then '9' else '0'))
      ps (processParts i ps) := by
  induction ps generalizing i with
  | nil => simp [processParts]
  | cons p ps ih =>
    rcases hwf p (by simp) with h | h
    · simp only [processParts, emitPart, h]
      refine List.Forall₂.cons ?_ (ih _ (fun q hq => hwf q (by simp [hq])))
      simp [toolCallFrame, h]
    · simp only [processParts, emitPart, h]
      refine List.Forall₂.cons ?_ (ih _ (fun q hq => hwf q (by simp [hq])))
      simp [textFrame, h]

theorem processParts_no_terminal (i : Nat) (ps : List Json)
    (hwf : ∀ p ∈ ps, wellFormedPart p) :
    ∀ f ∈ processParts i ps, f.head? ≠ some 'd' := by
  induction ps generalizing i with
  | nil => simp [processParts]
  | cons p ps ih =>
    intro f hf
    rcases hwf p (by simp) with h | h <;>
      simp only [processParts, emitPart, h, List.mem_append] at hf <;>
      rcases hf with hf | hf
    · simp at hf; subst hf; simp [toolCallFrame]
    · exact ih _ (fun q hq => hwf q (by simp [hq])) f hf
    · simp at hf; subst hf; simp [textFrame]
    · exact ih _ (fun q hq => hwf q (by simp [hq])) f hf

/-- C1: for every `ok` `SinglePayload` response whose `parts` sequence is
non-empty and well-formed, the synthetic stream is exactly one content frame
per part, in input order (a `9:` tool-call envelope for a thought-card part,
a `0:` text frame for a text part), followed by exactly one terminal `d:`
frame, and no content frame is a terminal frame. -/
theorem c1_parts_stream_shape (data : Json) (parts : JsonArr)
    (hp : data.getField "parts" = some (.arr parts))
    (hne : parts.toList ≠ [])
    (hwf : ∀ p ∈ parts.toList, wellFormedPart p) :
    handleOkData data = processParts 0 parts.toList ++ [dFrame (data.getField "usage")] ∧
    (processParts 0 parts.toList).length = parts.toList.length ∧
    List.Forall₂ (fun p f => f.head? =
        some (if p.getField "type" = some (.str "thought_card") then '9' else '0'))
      parts.toList (processParts 0 parts.toList) ∧
    (∀ f ∈ processParts 0 parts.toList, f.head? ≠ some 'd') ∧
    (dFrame (data.getField "usage")).head? = some 'd' := by
  have hf2 := processParts_forall2 0 parts.toList hwf
  refine ⟨?_, hf2.length_eq.symm, hf2, processParts_no_terminal 0 parts.toList hwf, rfl⟩
  have hEmpty : parts.toList.isEmpty = false := by
    cases h : parts.toList with
    | nil => exact absurd h hne
    | cons a l => rfl
  unfold handleOkData
  rw [hp]
  simp [hEmpty]

def c1Part1 : Json :=
  .obj (.cons "type" (.str "thought_card")
    (.cons "card_type" (.str "thinking")
    (.cons "content" (.str "analysing")
    (.cons "step" (.num 1) .nil))))

def c1Part2 : Json :=
  .obj (.cons "type" (.str "text") (.cons "text" (.str "Hi there") .nil))

def c1Parts : JsonArr := .cons c1Part1 (.cons c1Part2 .nil)

def c1Data : Json :=
  .obj (.cons "ok" (.bool true)
    (.cons "parts" (.arr c1Parts)
    (.cons "usage" (.obj (.cons "tokens" (.num 5) .nil)) .nil)))

/-- Witness for C1 at a concrete two-part payload. -/
theorem c1_parts_stream_shape_witness :
    c1Parts.toList ≠ [] ∧
    handleOkData c1Data = processParts 0 c1Parts.toList ++ [dFrame (c1Data.getField "usage")] ∧
    (processParts 0 c1Parts.toList).length = c1Parts.toList.length := by
  have h := c1_parts_stream_shape c1Data c1Parts (by decide) (by decide) (by decide)
  exact ⟨by decide, h.1, h.2.1⟩

/-- C5: when a successfully parsed thought card with `card_type:"thinking"`
and `step:1` arrives, the issued mutation sequence clears the step registry
and resets the thought-card state before anything is recorded, so the
resulting registry is the new step recorded into an empty registry and the
resulting steps list holds exactly the new step — whatever state (e.g. a
previously completed turn) was there before. -/
theorem c5_step1_thinking_clears_before_record (st : ConsumerState) (args : String) (p : Json)
    (hp : consumerParse args = some p)
    (hstep : p.getField "step" = some (.num 1))
    (hct : p.getField "card_type" = some (.str "thinking")) :
    toolFallbackActions st.tc.isVisible args =
      [.clearAllSteps, .reset] ++
      (if st.tc.isVisible then [] else [.startThinking (some "Starting analysis...")]) ++
      [.addStep (p.getField "content") (p.getField "tool_name") .thinking,
       .addStepData (some (.num 1)) (some (.str "thinking")) p, .setCardData p] ∧
    (runActions st (toolFallbackActions st.tc.isVisible args)).reg =
      applyStepData (some (.num 1)) (some (.str "thinking")) p emptyRegistry ∧
    (runActions st (toolFallbackActions st.tc.isVisible args)).tc.steps =
      [⟨p.getField "content", p.getField "tool_name", .thinking⟩] := by
  have htr : toolFallbackActions st.tc.isVisible args =
      [.clearAllSteps, .reset] ++
      (if st.tc.isVisible then [] else [.startThinking (some "Starting analysis...")]) ++
      [.addStep (p.getField "content") (p.getField "tool_name") .thinking,
       .addStepData (some (.num 1)) (some (.str "thinking")) p, .setCardData p] := by
    unfold toolFallbackActions
    rw [hp]
    cases hv : st.tc.isVisible <;> simp [hstep, hct]
  refine ⟨htr, ?_, ?_⟩ <;> rw [htr] <;> cases hv : st.tc.isVisible <;>
    simp [runActions, applyAction, resetTC]

def c5Card : Json :=
  .obj (.cons "content" (.str "go")
    (.cons "card_type" (.str "thinking")
    (.cons "step" (.num 1) .nil)))

def c5State : ConsumerState :=
  ⟨{ initialTC with
      isVisible := true
      status := .completed
      steps := [⟨some (.str "old"), none, .complete⟩] },
   ⟨[(some (.num 1), { emptyStepData with thinking := some (.str "old") })],
    some (.str "done")⟩,
   none⟩

/-- Witness for C5: a concrete step-1 thinking card arriving over a dirty,
completed state. -/
theorem c5_step1_thinking_clears_before_record_witness :
    consumerParse "\x7b\"content\":\"go\",\"card_type\":\"thinking\",\"step\":1\x7d" =
      some c5Card ∧
    (runActions c5State (toolFallbackActions c5State.tc.isVisible
        "\x7b\"content\":\"go\",\"card_type\":\"thinking\",\"step\":1\x7d")).reg =
      applyStepData (some (.num 1)) (some (.str "thinking")) c5Card emptyRegistry ∧
    (runActions c5State (toolFallbackActions c5State.tc.isVisible
        "\x7b\"content\":\"go\",\"card_type\":\"thinking\",\"step\":1\x7d")).tc.steps =
      [⟨some (.str "go"), none, .thinking⟩] := by
  have h := c5_step1_thinking_clears_before_record c5State
    "\x7b\"content\":\"go\",\"card_type\":\"thinking\",\"step\":1\x7d" c5Card
    (by decide) (by decide) (by decide)
  exact ⟨by decide, h.2.1, h.2.2.trans (by decide)⟩

def isAddStepAct : Act → Bool
  | .addStep _ _ _ => true
  | _ => false

/-- C4: over a fragment sequence that progressively types one JSON object
whose final form is a thinking card, the consumer issues no state mutation
for any fragment before the first completely parseable one, issues exactly
one `addStep` (and it has type `thinking`) on the final fragment, and defers
(no mutation) on any argument text not starting with a brace or a quote. -/
theorem c4_progressive_fragments_single_addStep (snapVisible : Bool)
    (frags : List String) (last : String) (p : Json)
    (hdefer : ∀ f ∈ frags, consumerParse f = none)
    (hlast : consumerParse last = some p)
    (hct : p.getField "card_type" = some (.str "thinking")) :
    (∀ f ∈ frags, toolFallbackActions snapVisible f = []) ∧
    (toolFallbackActions snapVisible last).countP isAddStepAct = 1 ∧
    (∀ t m ty, Act.addStep t m ty ∈ toolFallbackActions snapVisible last → ty = .thinking) ∧
    (∀ s : String,
      ¬((trimChars s.toList).head? = some '\x7b' ∨ (trimChars s.toList).head? = some '"') →
      toolFallbackActions snapVisible s = []) := by
  refine ⟨?_, ?_, ?_, ?_⟩
  · intro f hf
    unfold toolFallbackActions
    rw [hdefer f hf]
  · unfold toolFallbackActions
    rw [hlast]
    cases hstep : p.getField "step" == some (.num 1) <;> cases snapVisible <;>
      simp [hct, isAddStepAct, hstep, List.countP_cons, List.countP_append]
  · intro t m ty hmem
    unfold toolFallbackActions at hmem
    rw [hlast] at hmem
    cases hstep : p.getField "step" == some (.num 1) <;> cases snapVisible <;>
      simp [hct, hstep] at hmem <;> exact hmem.2.2
  · intro s hs
    push_neg at hs
    unfold toolFallbackActions consumerParse consumerDecode
    simp only [String.toList] at hs ⊢
    by_cases he : trimChars s.data = []
    · simp [he]
    · simp [he, hs.1, hs.2]

def c4Card : Json :=
  .obj (.cons "content" (.str "hi") (.cons "card_type" (.str "thinking") .nil))

/-- Witness for C4: the progressively-typed fragment sequence from the spec.
Every proper fragment fails to parse completely (zero mutations), the final
fragment issues exactly one `addStep`, and a fragment starting with neither a
brace nor a quote is deferred. -/
theorem c4_progressive_fragments_single_addStep_witness :
    (consumerParse "\x7b" = none ∧
     consumerParse "\x7b\"content\":" = none ∧
     consumerParse "\x7b\"content\":\"hi\",\"card_type\":\"thinki" = none) ∧
    (toolFallbackActions false "\x7b" = [] ∧
     toolFallbackActions false "\x7b\"content\":" = [] ∧
     toolFallbackActions false "\x7b\"content\":\"hi\",\"card_type\":\"thinki" = []) ∧
    (toolFallbackActions false
        "\x7b\"content\":\"hi\",\"card_type\":\"thinking\"\x7d").countP isAddStepAct = 1 ∧
    toolFallbackActions false "card_type" = [] := by
  have h := c4_progressive_fragments_single_addStep false
    ["\x7b", "\x7b\"content\":", "\x7b\"content\":\"hi\",\"card_type\":\"thinki"]
    "\x7b\"content\":\"hi\",\"card_type\":\"thinking\"\x7d" c4Card
    (by decide) (by decide) (by decide)
  refine ⟨⟨by decide, by decide, by decide⟩, ⟨?_, ?_, ?_⟩, h.2.1, ?_⟩
  · exact h.1 _ (by simp)
  · exact h.1 _ (by simp)
  · exact h.1 _ (by simp)
  · exact h.2.2.2 _ (by decide)

/-- C7: when the tool-call argument text parses to a JSON string, the
consumer parses that string a second time, and a failure of this second pass
is deferred with no state mutation; a decoded value that lacks the field
`content` or the field `card_type` is dropped silently with no state
mutation. -/
theorem c7_double_parse_failure_and_missing_fields (snapVisible : Bool) :
    (∀ (s : String) (inner : String),
      jsonParse (trimChars s.toList) = some (.str inner) →
      jsonParse inner.toList = none →
      toolFallbackActions snapVisible s = []) ∧
    (∀ (s : String) (p : Json),
      consumerDecode s = some p →
      (p.getField "content" = none ∨ p.getField "card_type" = none) →
      toolFallbackActions snapVisible s = []) := by
  constructor
  · intro s inner hfirst hsecond
    unfold toolFallbackActions consumerParse consumerDecode
    by_cases he : trimChars s.toList = []
    · have hn : jsonParse ([] : List Char) = none := rfl
      rw [he, hn] at hfirst
      exact Option.noConfusion hfirst
    · simp only [String.toList] at he hfirst hsecond ⊢
      simp [he, hfirst, hsecond]
  · intro s p hdec hmissing
    unfold toolFallbackActions consumerParse
    rw [hdec]
    rcases hmissing with h | h <;> simp [h, jsTruthyOpt]

/-- Witness for C7: `"\"abc\""` decodes to the string `"abc"` whose second
parse fails (deferred, no actions); `"\x7b\x7d"` decodes to an object lacking
both required fields (dropped, no actions). -/
theorem c7_double_parse_failure_and_missing_fields_witness :
    (jsonParse (trimChars "\"abc\"".toList) = some (.str "abc") ∧
     jsonParse "abc".toList = none ∧
     toolFallbackActions false "\"abc\"" = []) ∧
    (consumerDecode "\x7b\x7d" = some (.obj .nil) ∧
     toolFallbackActions false "\x7b\x7d" = []) := by
  have h := c7_double_parse_failure_and_missing_fields false
  exact ⟨⟨by decide, by decide, h.1 "\"abc\"" "abc" (by decide) (by decide)⟩,
    ⟨by decide, h.2 "\x7b\x7d" (.obj .nil) (by decide) (Or.inl (by decide))⟩⟩

def c6State : ConsumerState :=
  ⟨{ initialTC with
      isVisible := true
      status := .completed
      steps := [⟨some (.str "done"), none, .complete⟩] },
   emptyRegistry, none⟩

/-- C6 counterexample: after a turn has completed, a non-reset thought-card
signal (an `executing` card at step 2) processed through the `ToolFallback`
tool-call path is not ignored — it appends a step, so the processing is not
an idempotent no-op. -/
theorem c6_completed_toolfallback_still_appends :
    c6State.tc.status = .completed ∧
    toolFallbackActions c6State.tc.isVisible
      "\x7b\"content\":\"more\",\"card_type\":\"executing\",\"step\":2\x7d" ≠ [] ∧
    (runActions c6State (toolFallbackActions c6State.tc.isVisible
      "\x7b\"content\":\"more\",\"card_type\":\"executing\",\"step\":2\x7d")).tc.steps.length = 2 ∧
    (runActions c6State (toolFallbackActions c6State.tc.isVisible
      "\x7b\"content\":\"more\",\"card_type\":\"executing\",\"step\":2\x7d")).tc.status = .completed := by
  decide

/-- C6 (amended): once the turn's status is `completed`, every thought-card
signal processed through the streaming-data handler
(`useThoughtCardWithStreaming.handleStreamingData`) is ignored — no actions
are issued; the tool-call fallback path carries no such guard. -/
theorem c6_completed_guard_streaming_handler (snap : TCState) (data : Json)
    (hst : snap.status = .completed)
    (hty : data.getField "type" = some (.str "thought_card")) :
    handleStreamingDataActions snap data = [] := by
  unfold handleStreamingDataActions
  simp [hst, hty]

/-- Witness for C6 (amended): a concrete executing card against a completed
state produces no actions through the streaming-data handler. -/
theorem c6_completed_guard_streaming_handler_witness :
    ({ initialTC with status := .completed } : TCState).status = .completed ∧
    handleStreamingDataActions { initialTC with status := .completed }
      (.obj (.cons "type" (.str "thought_card")
        (.cons "card_type" (.str "executing")
        (.cons "content" (.str "more") .nil)))) = [] :=
  ⟨rfl, c6_completed_guard_streaming_handler _ _ rfl (by decide)⟩

theorem splitPump_cons_nl (cs : List Char) :
    splitPump ('\n' :: cs) = ([] :: (splitPump cs).1, (splitPump cs).2) := by
  simp [splitPump]

theorem splitPump_cons_other (c : Char) (cs : List Char) (hc : c ≠ '\n') :
    splitPump (c :: cs) =
      (match splitPump cs with
       | ([], r) => ([], c :: r)
       | (l :: ls, r) => ((c :: l) :: ls, r)) := by
  simp [splitPump, hc]

/-- A run of `split`/`pop` that produced no complete line leaves the whole
input in the carry-over buffer. -/
theorem splitPump_no_lines (cs : List Char) (h : (splitPump cs).1 = []) :
    (splitPump cs).2 = cs := by
  induction cs with
  | nil => rfl
  | cons c cs ih =>
    by_cases hc : c = '\n'
    · subst hc
      rw [splitPump_cons_nl] at h
      exact absurd h (by simp)
    · rw [splitPump_cons_other c cs hc] at h ⊢
      cases hsp : splitPump cs with
      | mk ls r =>
        cases ls with
        | nil =>
          have hr : r = cs := by have := ih (by rw [hsp]); rw [hsp] at this; exact this
          simp [hsp, hr]
        | cons l ls' => rw [hsp] at h; exact absurd h (by simp)

/-- The carry-over buffer is newline-free: splitting it again yields no
complete line. -/
theorem splitPump_rest_no_lines (cs : List Char) :
    (splitPump ((splitPump cs).2)).1 = [] := by
  induction cs with
  | nil => rfl
  | cons c cs ih =>
    by_cases hc : c = '\n'
    · subst hc; rw [splitPump_cons_nl]; exact ih
    · rw [splitPump_cons_other c cs hc]
      cases hsp : splitPump cs with
      | mk ls r =>
        rw [hsp] at ih
        cases ls with
        | nil =>
          have hrl : (splitPump r).1 = [] := ih
          have hrr : (splitPump r).2 = r := splitPump_no_lines r hrl
          simp only []
          rw [splitPump_cons_other c r hc]
          cases hspr : splitPump r with
          | mk ls2 r2 =>
            rw [hspr] at hrl
            subst hrl
            simp
        | cons l ls' => simpa using ih

/-- Splitting a concatenation: the lines of `a`, then the lines obtained by
re-splitting `a`'s carry-over buffer prefixed to `b`. -/
theorem splitPump_append (a b : List Char) :
    splitPump (a ++ b) =
      ((splitPump a).1 ++ (splitPump ((splitPump a).2 ++ b)).1,
       (splitPump ((splitPump a).2 ++ b)).2) := by
  induction a with
  | nil => simp [splitPump]
  | cons c a ih =>
    by_cases hc : c = '\n'
    · subst hc
      rw [List.cons_append, splitPump_cons_nl, splitPump_cons_nl, ih]
      simp
    · rw [List.cons_append, splitPump_cons_other c (a ++ b) hc,
        splitPump_cons_other c a hc]
      cases hsp : splitPump a with
      | mk ls r =>
        cases ls with
        | nil =>
          have hr : r = a := by
            have := splitPump_no_lines a (by rw [hsp]); rw [hsp] at this; exact this
          rw [ih, hsp]
          subst hr
          simp only [List.nil_append]
          rw [List.cons_append, splitPump_cons_other c (r ++ b) hc]
        | cons l ls' =>
          rw [ih, hsp]
          simp

theorem emitLines_append (l1 l2 : List (List Char)) :
    emitLines (l1 ++ l2) = emitLines l1 ++ emitLines l2 := by
  simp [emitLines]

theorem canonicalOut_append (a b : List Char) :
    canonicalOut (a ++ b) =
      emitLines (splitPump a).1 ++ canonicalOut ((splitPump a).2 ++ b) := by
  unfold canonicalOut
  rw [splitPump_append a b, emitLines_append]
  simp

/-- The pump's output over any chunk sequence, threading a newline-free
buffer, is the canonical single-pass output of the buffer followed by the
concatenated chunks. -/
theorem pumpGo_eq_canonical (chunks : List (List Char)) :
    ∀ buffer : List Char, (splitPump buffer).1 = [] →
      pumpGo buffer chunks = canonicalOut (buffer ++ chunks.flatten) := by
  induction chunks with
  | nil =>
    intro buffer hb
    have h2 := splitPump_no_lines buffer hb
    simp [pumpGo, canonicalOut, hb, h2, emitLines]
  | cons c cs ih =>
    intro buffer hb
    rw [List.flatten_cons, ← List.append_assoc, canonicalOut_append (buffer ++ c) cs.flatten]
    unfold pumpGo
    rw [ih ((splitPump (buffer ++ c)).2) (splitPump_rest_no_lines (buffer ++ c))]

/-- Reconstruction: re-appending a newline to every complete line and adding
the carry-over buffer reproduces the input. -/
theorem splitPump_reconstruct (cs : List Char) :
    ((splitPump cs).1.map (fun l => l ++ ['\n'])).flatten ++ (splitPump cs).2 = cs := by
  induction cs with
  | nil => rfl
  | cons c cs ih =>
    by_cases hc : c = '\n'
    · subst hc
      rw [splitPump_cons_nl]
      simpa using ih
    · rw [splitPump_cons_other c cs hc]
      cases hsp : splitPump cs with
      | mk ls r =>
        rw [hsp] at ih
        cases ls with
        | nil => simpa using ih
        | cons l ls' =>
          simp only [] at ih ⊢
          simp only [List.map_cons, List.flatten_cons, List.cons_append] at ih ⊢
          rw [List.append_assoc] at ih ⊢
          simpa using ih

/-- Trailing-newline normalization: drop trailing newline characters. -/
def rstripNl (cs : List Char) : List Char :=
  (cs.reverse.dropWhile (fun c => c = '\n')).reverse

/-- C2 counterexample: for the raw stream `"a\n \nb"` (delivered as a single
chunk, so no boundary effect is involved) the concatenated output is
`"a\nb"`: the whitespace-only line and its newline are dropped from the
middle of the stream, so the re-assembled output does not equal the input
even modulo trailing-newline normalization. -/
theorem c2_whitespace_line_dropped :
    (pumpChunks ["a\n \nb".toList]).flatten = "a\nb".toList ∧
    rstripNl ((pumpChunks ["a\n \nb".toList]).flatten) ≠ rstripNl "a\n \nb".toList := by
  decide

/-- C2 (amended): the pump's output depends only on the concatenation of the
chunks — re-framing is independent of how the transport splits the stream
into read chunks — and it equals the input with its whitespace-only line
segments removed; on inputs none of whose line segments are whitespace-only
the re-assembled output equals the input exactly. -/
theorem c2_boundary_independent_lossless_mod_blank :
    (∀ chunks : List (List Char), pumpChunks chunks = canonicalOut chunks.flatten) ∧
    (∀ input : List Char,
      (∀ l ∈ (splitPump input).1, (trimChars l).isEmpty = false) →
      ((splitPump input).2 = [] ∨ (trimChars (splitPump input).2).isEmpty = false) →
      (pumpChunks [input]).flatten = input) := by
  have hmain : ∀ chunks : List (List Char), pumpChunks chunks = canonicalOut chunks.flatten := by
    intro chunks
    unfold pumpChunks
    rw [pumpGo_eq_canonical chunks [] rfl]
    rfl
  refine ⟨hmain, ?_⟩
  intro input hlines hrest
  rw [hmain [input]]
  have hflat : ([input] : List (List Char)).flatten = input := by simp
  rw [hflat]
  unfold canonicalOut emitLines
  rw [List.filter_eq_self.mpr (by intro l hl; simpa using hlines l hl)]
  rcases hrest with h | h
  · have hr := splitPump_reconstruct input
    rw [h] at hr
    rw [h]
    simpa [trimChars] using hr
  · rw [h]
    simpa using splitPump_reconstruct input

/-- Witness for C2 (amended): a mid-line chunk split re-assembles to the same
output as the unsplit stream, and a blank-line-free input round-trips
exactly. -/
theorem c2_boundary_independent_lossless_mod_blank_witness :
    pumpChunks ["ab".toList, "c\nd".toList] = canonicalOut "abc\nd".toList ∧
    pumpChunks ["ab".toList, "c\nd".toList] = pumpChunks ["abc\nd".toList] ∧
    (∀ l ∈ (splitPump "a\nb".toList).1, (trimChars l).isEmpty = false) ∧
    (pumpChunks ["a\nb".toList]).flatten = "a\nb".toList := by
  have h := c2_boundary_independent_lossless_mod_blank
  refine ⟨(h.1 ["ab".toList, "c\nd".toList]).trans (by decide), ?_, by decide, ?_⟩
  · rw [h.1 ["ab".toList, "c\nd".toList], h.1 ["abc\nd".toList]]
    decide
  · exact h.2 "a\nb".toList (by decide) (by decide)

theorem escChar_other (c : Char) (h1 : c ≠ '"') (h2 : c ≠ '\\') (h3 : c ≠ '\n')
    (h4 : c ≠ '\t') (h5 : c ≠ '\r') : escChar c = [c] := by
  unfold escChar
  split <;> simp_all

theorem parseStrChars_quote (r : List Char) : parseStrChars ('"' :: r) = some ([], r) := by
  simp [parseStrChars]

theorem parseStrChars_esc (e : Char) (d : Char) (r2 : List Char) (h : unescChar e = some d) :
    parseStrChars ('\\' :: e :: r2) =
      (parseStrChars r2).map (fun p => (d :: p.1, p.2)) := by
  simp [parseStrChars, h]

theorem parseStrChars_other (c : Char) (r : List Char) (h1 : c ≠ '"') (h2 : c ≠ '\\') :
    parseStrChars (c :: r) = (parseStrChars r).map (fun p => (c :: p.1, p.2)) := by
  rw [parseStrChars.eq_def]
  split <;> simp_all

/-- Round-trip of the string-body escaping through the string-body parser. -/
theorem parseStrChars_escape (cs : List Char) (rest : List Char) :
    parseStrChars (escape cs ++ '"' :: rest) = some (cs, rest) := by
  induction cs with
  | nil => simp [escape, parseStrChars_quote]
  | cons c cs ih =>
    have hesc : escape (c :: cs) = escChar c ++ escape cs := by simp [escape]
    rw [hesc, List.append_assoc]
    by_cases h1 : c = '"'
    · subst h1
      rw [show escChar '"' = ['\\', '"'] from rfl]
      rw [show (['\\', '"'] : List Char) ++ (escape cs ++ '"' :: rest) =
        '\\' :: '"' :: (escape cs ++ '"' :: rest) from rfl]
      rw [parseStrChars_esc '"' '"' _ rfl, ih]
      rfl
    · by_cases h2 : c = '\\'
      · subst h2
        rw [show escChar '\\' = ['\\', '\\'] from rfl]
        rw [show (['\\', '\\'] : List Char) ++ (escape cs ++ '"' :: rest) =
          '\\' :: '\\' :: (escape cs ++ '"' :: rest) from rfl]
        rw [parseStrChars_esc '\\' '\\' _ rfl, ih]
        rfl
      · by_cases h3 : c = '\n'
        · subst h3
          rw [show escChar '\n' = ['\\', 'n'] from rfl]
          rw [show (['\\', 'n'] : List Char) ++ (escape cs ++ '"' :: rest) =
            '\\' :: 'n' :: (escape cs ++ '"' :: rest) from rfl]
          rw [parseStrChars_esc 'n' '\n' _ rfl, ih]
          rfl
        · by_cases h4 : c = '\t'
          · subst h4
            rw [show escChar '\t' = ['\\', 't'] from rfl]
            rw [show (['\\', 't'] : List Char) ++ (escape cs ++ '"' :: rest) =
              '\\' :: 't' :: (escape cs ++ '"' :: rest) from rfl]
            rw [parseStrChars_esc 't' '\t' _ rfl, ih]
            rfl
          · by_cases h5 : c = '\r'
            · subst h5
              rw [show escChar '\r' = ['\\', 'r'] from rfl]
              rw [show (['\\', 'r'] : List Char) ++ (escape cs ++ '"' :: rest) =
                '\\' :: 'r' :: (escape cs ++ '"' :: rest) from rfl]
              rw [parseStrChars_esc 'r' '\r' _ rfl, ih]
              rfl
            · rw [escChar_other c h1 h2 h3 h4 h5]
              rw [show ([c] : List Char) ++ (escape cs ++ '"' :: rest) =
                c :: (escape cs ++ '"' :: rest) from rfl]
              rw [parseStrChars_other c _ h1 h2, ih]
              rfl

theorem isDigitChar_digitChar (n : Nat) : isDigitChar (digitChar n) = true := by
  unfold digitChar
  split <;> decide

theorem digitVal_digitChar (n : Nat) (h : n < 10) : digitVal (digitChar n) = n := by
  interval_cases n <;> rfl

theorem natDigitsAux_digits (f : Nat) : ∀ n, ∀ c ∈ natDigitsAux f n, isDigitChar c = true := by
  induction f with
  | zero => simp [natDigitsAux]
  | succ f ih =>
    intro n c hc
    unfold natDigitsAux at hc
    by_cases h : n < 10
    · simp [h] at hc
      subst hc
      exact isDigitChar_digitChar n
    · simp [h, List.mem_append] at hc
      rcases hc with hc | hc
      · exact ih (n / 10) c hc
      · subst hc
        exact isDigitChar_digitChar (n % 10)

theorem natDigits_digits (n : Nat) : ∀ c ∈ natDigits n, isDigitChar c = true :=
  natDigitsAux_digits (n + 1) n

theorem foldDigits_natDigitsAux (f : Nat) : ∀ n, n < f →
    foldDigits (natDigitsAux f n) = n := by
  induction f with
  | zero => omega
  | succ f ih =>
    intro n hn
    unfold natDigitsAux
    by_cases h : n < 10
    · simp [h, foldDigits, digitVal_digitChar n h]
    · have hdiv : n / 10 < n := Nat.div_lt_self (by omega) (by omega)
      simp only [h, if_false]
      unfold foldDigits
      rw [List.foldl_append]
      have := ih (n / 10) (by omega)
      unfold foldDigits at this
      rw [this]
      simp [digitVal_digitChar (n % 10) (Nat.mod_lt _ (by omega))]
      omega

theorem foldDigits_natDigits (n : Nat) : foldDigits (natDigits n) = n :=
  foldDigits_natDigitsAux (n + 1) n (by omega)

theorem natDigits_ne_nil (n : Nat) : natDigits n ≠ [] := by
  unfold natDigits natDigitsAux
  by_cases h : n < 10 <;> simp [h]

theorem takeWhile_all_append (p : Char → Bool) (ds rest : List Char)
    (hds : ∀ c ∈ ds, p c = true)
    (hrest : ∀ c, rest.head? = some c → p c = false) :
    (ds ++ rest).takeWhile p = ds ∧ (ds ++ rest).dropWhile p = rest := by
  induction ds with
  | nil =>
    cases rest with
    | nil => simp
    | cons r rs =>
      have := hrest r rfl
      simp [List.takeWhile_cons, List.dropWhile_cons, this]
  | cons d ds ih =>
    have hd := hds d (by simp)
    have hih := ih (fun c hc => hds c (by simp [hc]))
    simp [List.takeWhile_cons, List.dropWhile_cons, hd, hih.1, hih.2]

theorem digit_not_ws (c : Char) (h : isDigitChar c = true) : isWsChar c = false := by
  unfold isWsChar
  simp only [Bool.or_eq_false_iff, decide_eq_false_iff_not]
  refine ⟨⟨⟨fun hc => ?_, fun hc => ?_⟩, fun hc => ?_⟩, fun hc => ?_⟩ <;>
    (subst hc; exact absurd h (by decide))

theorem digit_ne_starters (c : Char) (h : isDigitChar c = true) :
    c ≠ '"' ∧ c ≠ '\x7b' ∧ c ≠ '[' ∧ c ≠ 't' ∧ c ≠ 'f' ∧ c ≠ 'n' ∧ c ≠ '-' := by
  refine ⟨?_, ?_, ?_, ?_, ?_, ?_, ?_⟩ <;> (rintro rfl; exact absurd h (by decide))

theorem skipWs_cons_not (c : Char) (cs : List Char) (h : isWsChar c = false) :
    skipWs (c :: cs) = c :: cs := by
  simp [skipWs, List.dropWhile_cons, h]

theorem parseValue_str (f : Nat) (s : String) (rest : List Char) :
    parseValue (f + 1) (stringifyChars (.str s) ++ rest) = some (.str s, rest) := by
  have hshape : stringifyChars (.str s) ++ rest = '"' :: (escape s.toList ++ '"' :: rest) := by
    simp [stringifyChars]
  rw [hshape]
  simp only [parseValue]
  rw [skipWs_cons_not '"' _ (by decide)]
  simp [parseStrChars_escape]

theorem parseValue_natNum (f : Nat) (n : Nat) (rest : List Char)
    (hr : ∀ c, rest.head? = some c → isDigitChar c = false) :
    parseValue (f + 1) (natDigits n ++ rest) = some (.num n, rest) := by
  obtain ⟨d, ds, hnd⟩ : ∃ d ds, natDigits n = d :: ds := by
    cases h : natDigits n with
    | nil => exact absurd h (natDigits_ne_nil n)
    | cons d ds => exact ⟨d, ds, rfl⟩
  have hdig : ∀ c ∈ natDigits n, isDigitChar c = true := natDigits_digits n
  have hd : isDigitChar d = true := hdig d (by rw [hnd]; simp)
  have hne := digit_ne_starters d hd
  have htw := takeWhile_all_append isDigitChar (natDigits n) rest hdig hr
  rw [hnd] at htw ⊢
  rw [List.cons_append] at htw ⊢
  simp only [parseValue]
  rw [skipWs_cons_not d _ (digit_not_ws d hd)]
  simp only [hne.1, hne.2.1, hne.2.2.1, hne.2.2.2.1, hne.2.2.2.2.1, hne.2.2.2.2.2.1,
    hne.2.2.2.2.2.2, if_false, if_neg, hd, if_true, htw.1, htw.2]
  rw [← hnd, foldDigits_natDigits]

theorem parseMembers_cons (f : Nat) (k : String) (v : Json) (more rest : List Char)
    (ms : JsonObj)
    (hv : parseValue f (stringifyChars v ++ ',' :: more) = some (v, ',' :: more))
    (hm : parseMembers f more = some (ms, rest)) :
    parseMembers (f + 1)
      ('"' :: (escape k.toList ++ '"' :: ':' :: (stringifyChars v ++ ',' :: more))) =
      some (.cons k v ms, rest) := by
  simp only [parseMembers]
  rw [skipWs_cons_not '"' _ (by decide)]
  simp [skipWs, List.dropWhile_cons, isWsChar, parseStrChars_escape, hv, hm]

theorem parseMembers_last (f : Nat) (k : String) (v : Json) (rest : List Char)
    (hv : parseValue f (stringifyChars v ++ '\x7d' :: rest) = some (v, '\x7d' :: rest)) :
    parseMembers (f + 1)
      ('"' :: (escape k.toList ++ '"' :: ':' :: (stringifyChars v ++ '\x7d' :: rest))) =
      some (.cons k v .nil, rest) := by
  simp only [parseMembers]
  rw [skipWs_cons_not '"' _ (by decide)]
  simp [skipWs, List.dropWhile_cons, isWsChar, parseStrChars_escape, hv]

/-- Values whose serializations the value parser consumes in one step:
strings and non-negative integer numerals. -/
def atomicVal : Json → Prop
  | .str _ => True
  | .num n => 0 ≤ n
  | _ => False

theorem parseValue_atomic (v : Json) (h : atomicVal v) (g : Nat) (rest : List Char)
    (hr : ∀ c, rest.head? = some c → isDigitChar c = false) :
    parseValue (g + 1) (stringifyChars v ++ rest) = some (v, rest) := by
  match v, h with
  | .str s, _ => exact parseValue_str g s rest
  | .num n, hn =>
    obtain ⟨m, rfl⟩ : ∃ m : Nat, n = (m : Int) := ⟨n.toNat, (Int.toNat_of_nonneg hn).symm⟩
    rw [show stringifyChars (Json.num (m : Int)) = natDigits m from rfl]
    exact parseValue_natNum g m rest hr

def objCount : JsonObj → Nat
  | .nil => 0
  | .cons _ _ tl => objCount tl + 1

def objAtomic : JsonObj → Prop
  | .nil => True
  | .cons _ v tl => atomicVal v ∧ objAtomic tl

/-- The member list of a non-empty object followed by the closing brace and
the remainder, in parser-aligned (right-nested) form. -/
def mcat : JsonObj → List Char → List Char
  | .nil, rest => rest
  | .cons k v .nil, rest =>
    '"' :: (escape k.toList ++ '"' :: ':' :: (stringifyChars v ++ '\x7d' :: rest))
  | .cons k v (.cons k2 v2 tl), rest =>
    '"' :: (escape k.toList ++ '"' :: ':' ::
      (stringifyChars v ++ ',' :: mcat (.cons k2 v2 tl) rest))

theorem membersChars_append : ∀ (fields : JsonObj), fields ≠ .nil → ∀ (rest : List Char),
    membersChars fields ++ '\x7d' :: rest = mcat fields rest
  | .nil, hne, _ => absurd rfl hne
  | .cons k v .nil, _, rest => by
    simp [membersChars, mcat, List.append_assoc]
  | .cons k v (.cons k2 v2 tl), _, rest => by
    rw [membersChars, mcat]
    rw [← membersChars_append (.cons k2 v2 tl) (by simp) rest]
    simp [List.append_assoc]

theorem parseMembers_mcat : ∀ (fields : JsonObj), objAtomic fields →
    ∀ (f : Nat) (rest : List Char), fields ≠ .nil →
      parseMembers (f + objCount fields + 1) (mcat fields rest) = some (fields, rest)
  | .nil, _, _, _, hne => absurd rfl hne
  | .cons k v .nil, ha, f, rest, _ => by
    rw [mcat]
    rw [show objCount (JsonObj.cons k v .nil) = 1 from rfl]
    exact parseMembers_last (f + 1) k v rest
      (parseValue_atomic v ha.1 f ('\x7d' :: rest)
        (by rintro c hc; simp at hc; subst hc; decide))
  | .cons k v (.cons k2 v2 tl2), ha, f, rest, _ => by
    rw [mcat]
    rw [show objCount (JsonObj.cons k v (.cons k2 v2 tl2)) =
      objCount (JsonObj.cons k2 v2 tl2) + 1 from rfl]
    have hrec := parseMembers_mcat (.cons k2 v2 tl2) ha.2 f rest (by simp)
    rw [show f + (objCount (JsonObj.cons k2 v2 tl2) + 1) + 1 =
      (f + objCount (JsonObj.cons k2 v2 tl2) + 1) + 1 by omega]
    exact parseMembers_cons (f + objCount (JsonObj.cons k2 v2 tl2) + 1) k v
      (mcat (.cons k2 v2 tl2) rest) rest (.cons k2 v2 tl2)
      (parseValue_atomic v ha.1 (f + objCount (JsonObj.cons k2 v2 tl2))
        (',' :: mcat (.cons k2 v2 tl2) rest)
        (by rintro c hc; simp at hc; subst hc; decide))
      hrec

/-- A non-empty object of atomic members parses back to itself. -/
theorem parseValue_obj_atomic (fields : JsonObj) (hne : fields ≠ .nil)
    (ha : objAtomic fields) (f : Nat) (rest : List Char) :
    parseValue (f + objCount fields + 2) (stringifyChars (.obj fields) ++ rest) =
      some (.obj fields, rest) := by
  have hshape : stringifyChars (.obj fields) ++ rest = '\x7b' :: mcat fields rest := by
    rw [show stringifyChars (Json.obj fields) =
      '\x7b' :: (membersChars fields ++ ['\x7d']) from rfl]
    rw [List.cons_append, List.append_assoc]
    rw [show (['\x7d'] : List Char) ++ rest = '\x7d' :: rest from rfl]
    rw [membersChars_append fields hne rest]
  rw [hshape]
  obtain ⟨k, v, tl, rfl⟩ : ∃ k v tl, fields = JsonObj.cons k v tl := by
    cases fields with
    | nil => exact absurd rfl hne
    | cons k v tl => exact ⟨k, v, tl, rfl⟩
  have hmc : ∃ tail, mcat (JsonObj.cons k v tl) rest = '"' :: tail := by
    cases tl <;> exact ⟨_, rfl⟩
  obtain ⟨tail, htail⟩ := hmc
  rw [htail]
  rw [show f + objCount (JsonObj.cons k v tl) + 2 =
    (f + objCount (JsonObj.cons k v tl) + 1) + 1 by omega]
  have hm := parseMembers_mcat (JsonObj.cons k v tl) ha f rest (by simp)
  rw [htail] at hm
  simp only [parseValue]
  simp [skipWs, List.dropWhile_cons, isWsChar, hm]

theorem objCount_le_length : ∀ (fields : JsonObj),
    objCount fields ≤ (membersChars fields).length
  | .nil => by simp [objCount, membersChars]
  | .cons k v .nil => by
    rw [show objCount (JsonObj.cons k v .nil) = 1 from rfl, membersChars]
    simp
  | .cons k v (.cons k2 v2 tl) => by
    rw [show objCount (JsonObj.cons k v (.cons k2 v2 tl)) =
      objCount (JsonObj.cons k2 v2 tl) + 1 from rfl, membersChars]
    have := objCount_le_length (.cons k2 v2 tl)
    simp
    omega

/-- Top-level round trip: `JSON.parse(JSON.stringify(x))` recovers a
non-empty object of atomic members. -/
theorem jsonParse_obj_atomic (fields : JsonObj) (hne : fields ≠ .nil)
    (ha : objAtomic fields) :
    jsonParse (stringifyChars (.obj fields)) = some (.obj fields) := by
  unfold jsonParse
  have hbound : objCount fields ≤ (stringifyChars (Json.obj fields)).length := by
    rw [show stringifyChars (Json.obj fields) =
      '\x7b' :: (membersChars fields ++ ['\x7d']) from rfl]
    have := objCount_le_length fields
    simp
    omega
  have heq : (stringifyChars (Json.obj fields)).length + 9 =
      ((stringifyChars (Json.obj fields)).length + 7 - objCount fields) +
        objCount fields + 2 := by omega
  rw [heq]
  have h := parseValue_obj_atomic fields hne ha
    ((stringifyChars (Json.obj fields)).length + 7 - objCount fields) []
  rw [List.append_nil] at h
  rw [h]
  rfl

theorem trimChars_eq_self (cs : List Char)
    (h1 : ∀ c, cs.head? = some c → isWsChar c = false)
    (h2 : ∀ c, cs.getLast? = some c → isWsChar c = false) :
    trimChars cs = cs := by
  unfold trimChars
  have hd : cs.dropWhile isWsChar = cs := by
    cases cs with
    | nil => rfl
    | cons c cs' => simp [List.dropWhile_cons, h1 c rfl]
  rw [hd]
  have hr : cs.reverse.dropWhile isWsChar = cs.reverse := by
    cases hrev : cs.reverse with
    | nil => rfl
    | cons c cs' =>
      have hlast : cs.getLast? = some c := by
        rw [← List.head?_reverse, hrev]
        rfl
      simp [List.dropWhile_cons, h2 c hlast]
  rw [hr, List.reverse_reverse]

theorem trimChars_obj (fields : JsonObj) :
    trimChars (stringifyChars (.obj fields)) = stringifyChars (.obj fields) := by
  apply trimChars_eq_self
  · intro c hc
    rw [show stringifyChars (Json.obj fields) =
      '\x7b' :: (membersChars fields ++ ['\x7d']) from rfl] at hc
    simp at hc
    subst hc
    decide
  · intro c hc
    rw [show stringifyChars (Json.obj fields) =
      ('\x7b' :: membersChars fields) ++ ['\x7d'] from rfl,
      List.getLast?_concat] at hc
    simp at hc
    subst hc
    decide

/-- The spec's `ThoughtCardPart` shape (data model §3): `card_type`,
`content`, `step` and an optional `tool_name`, tagged `type:"thought_card"`
as the translator's Case B path requires. -/
structure TCPart where
  card_type : String
  content : String
  step : Nat
  tool_name : Option String
  deriving DecidableEq, Repr

def TCPart.fieldsJson (c : TCPart) : JsonObj :=
  .cons "type" (.str "thought_card")
    (.cons "card_type" (.str c.card_type)
    (.cons "content" (.str c.content)
    (.cons "step" (.num c.step)
    (match c.tool_name with
     | some t => .cons "tool_name" (.str t) .nil
     | none => .nil))))

def TCPart.toJson (c : TCPart) : Json := .obj c.fieldsJson

theorem tcpart_fields_ne_nil (c : TCPart) : c.fieldsJson ≠ .nil := by
  simp [TCPart.fieldsJson]

theorem tcpart_fields_atomic (c : TCPart) : objAtomic c.fieldsJson := by
  cases h : c.tool_name <;>
    simp [TCPart.fieldsJson, objAtomic, atomicVal, h, Int.natCast_nonneg]

/-- C10: for every thought-card part emitted on the translator's single-JSON
(Case B) path, the tool-call envelope's `args` field is the single JSON
serialization of the part; the consumer's first `JSON.parse` of that args
text yields the part object itself — never a string, so the double-decode
branch is not taken — and the whole decode recovers the original part:
translator-encode followed by consumer-decode is the identity. -/
theorem c10_encode_decode_identity (c : TCPart) (index : Nat) :
    (envelopeJson index c.toJson).getField "args" = some (.str (stringify c.toJson)) ∧
    jsonParse ((stringify c.toJson).toList) = some c.toJson ∧
    (∀ s, c.toJson ≠ .str s) ∧
    consumerDecode (stringify c.toJson) = some c.toJson := by
  have hround : jsonParse (stringifyChars (.obj c.fieldsJson)) =
      some (.obj c.fieldsJson) :=
    jsonParse_obj_atomic c.fieldsJson (tcpart_fields_ne_nil c) (tcpart_fields_atomic c)
  refine ⟨?_, ?_, ?_, ?_⟩
  · rfl
  · rw [show (stringify c.toJson).toList = stringifyChars (.obj c.fieldsJson) from rfl]
    exact hround
  · intro s h
    rw [TCPart.toJson] at h
    exact Json.noConfusion h
  · unfold consumerDecode
    rw [show (stringify c.toJson).toList = stringifyChars (.obj c.fieldsJson) from rfl]
    rw [trimChars_obj c.fieldsJson]
    have h1 : (stringifyChars (Json.obj c.fieldsJson)).isEmpty = false := by
      rw [show stringifyChars (Json.obj c.fieldsJson) =
        '\x7b' :: (membersChars c.fieldsJson ++ ['\x7d']) from rfl]
      rfl
    have h2 : (stringifyChars (Json.obj c.fieldsJson)).head? = some '\x7b' := by
      rw [show stringifyChars (Json.obj c.fieldsJson) =
        '\x7b' :: (membersChars c.fieldsJson ++ ['\x7d']) from rfl]
      rfl
    simp [h1, h2, hround, TCPart.toJson]

example :
    consumerDecode (stringify (TCPart.mk "thinking" "checking docs" 2 (some "search")).toJson) =
      some (TCPart.mk "thinking" "checking docs" 2 (some "search")).toJson := by
  decide
